import Mathlib

/-!
Shallow embedding of the PII rule-graph compiler (`relay-pii/src/compiledconfig.rs`)
and of the forwarded-for header extractor (`relay-server/src/extractors/forwarded_for.rs`).

Machine-level details that live outside the embedded files (the builtin rule table,
the regex engine, the concrete redaction variants) are modelled from the spec at
their interface, as documented on each definition.
-/

/-- Selectors are opaque keys for this component; modelled as strings. -/
abbrev SelectorSpec := String

/-- Modelled from the spec: a reportable configuration error (the error type
`PiiConfigError` lives outside the embedded file); only its identity matters here. -/
structure PiiConfigError where
  message : String
deriving DecidableEq

/-- Modelled from the spec: the regex engine is an opaque "compile this pattern,
fail with a reportable error if invalid" capability. `compile_result` stores the
outcome of compiling `source`: `none` means success, `some e` the failure. -/
structure Pattern where
  source : String
  compile_result : Option PiiConfigError
deriving DecidableEq

/-- Forcing compilation of the pattern, as `pattern.compiled()` in the source. -/
def Pattern.compiled (p : Pattern) : Except PiiConfigError Unit :=
  match p.compile_result with
  | some e => Except.error e
  | none => Except.ok ()

/-- A pattern rule: carries the pattern that is matched. -/
structure PatternRule where
  pattern : Pattern
deriving DecidableEq

/-- A redact-pair rule: carries the key pattern that is checked. -/
structure RedactPairRule where
  key_pattern : Pattern
deriving DecidableEq

/-- A `Multiple` wrapper: an ordered list of sub-rule ids plus `hide_inner`. -/
structure MultipleRule where
  rules : List String
  hide_inner : Bool
deriving DecidableEq

/-- An `Alias` wrapper: a single sub-rule id plus `hide_inner`. -/
structure AliasRule where
  rule : String
  hide_inner : Bool
deriving DecidableEq

/-- The tagged union of rule behaviours, with the variants named in the source's
exhaustive match in `force_compile`. -/
inductive RuleType where
  | Pattern (rule : PatternRule)
  | Anything
  | Imei
  | Mac
  | Uuid
  | Email
  | Ip
  | Creditcard
  | Iban
  | Userpath
  | Pemkey
  | UrlAuth
  | UsSsn
  | Password
  | RedactPair (rule : RedactPairRule)
  | Multiple (rule : MultipleRule)
  | Alias (rule : AliasRule)
  | Unknown (tag : String)
deriving DecidableEq

/-- Modelled from the spec: the redaction action. `Default` defers to context;
all other variants are concrete, self-sufficient actions. -/
inductive Redaction where
  | Default
  | Mask
  | Replace
  | Remove
  | Other (tag : String)
deriving DecidableEq

/-- A rule specification: a behaviour plus a redaction action. -/
structure RuleSpec where
  ty : RuleType
  redaction : Redaction
deriving DecidableEq

/-- The source policy: a rule table and an ordered list of applications.
Maps are modelled as association lists with first-match lookup. -/
structure PiiConfig where
  rules : List (String × RuleSpec)
  applications : List (SelectorSpec × List String)
deriving DecidableEq

/-- Reference to a PII rule: the compiled, terminal unit. -/
structure RuleRef where
  id : String
  origin : String
  ty : RuleType
  redaction : Redaction
deriving DecidableEq

/-- `RuleRef::new`: builds a reference from an id and its specification. -/
def RuleRef.new (id : String) (spec : RuleSpec) : RuleRef :=
  { id := id, origin := id, ty := spec.ty, redaction := spec.redaction }

/-- `RuleRef::for_parent`: keep `id`/`ty`, take `origin` from the parent, and let
the parent's redaction win unless it is `Default`. -/
def RuleRef.for_parent (self parent : RuleRef) : RuleRef :=
  { id := self.id
    origin := parent.origin
    ty := self.ty
    redaction :=
      match parent.redaction with
      | Redaction.Default => self.redaction
      | r => r }

/-- The `PartialEq` impl of `RuleRef`: equality on `id` alone. -/
def RuleRef.beq (self other : RuleRef) : Bool :=
  self.id == other.id

/-- The `Ord` impl of `RuleRef`: `self.id.cmp(&other.id)`. -/
def RuleRef.cmp (self other : RuleRef) : Ordering :=
  if self.id < other.id then Ordering.lt
  else if self.id = other.id then Ordering.eq
  else Ordering.gt

/-- `BTreeSet::contains` under the id-only `Ord`: membership by id. -/
def containsRef (rules : List RuleRef) (r : RuleRef) : Bool :=
  rules.any (fun x => RuleRef.beq x r)

/-- `BTreeSet::insert` under the id-only `Ord`: the set is kept strictly sorted
by id, and an already-present id keeps the existing element. -/
def insertRef : List RuleRef → RuleRef → List RuleRef
  | [], r => [r]
  | x :: xs, r =>
    match RuleRef.cmp r x with
    | Ordering.lt => r :: x :: xs
    | Ordering.eq => x :: xs
    | Ordering.gt => x :: insertRef xs r

/-- The process-wide builtin table is a parameter of the embedding: an id to
specification lookup, lower precedence than the policy's own table. -/
abbrev BuiltinMap := String → Option RuleSpec

/-- Modelled from the spec: `BUILTIN_RULES_MAP` (the file `builtin.rs` is not in
scope); the spec fixes that `@email` is a built-in email detector with redaction
`Default`, and describes further detectors such as the ip detector. -/
def BUILTIN_RULES_MAP : BuiltinMap := fun id =>
  if id = "@email" then some { ty := RuleType.Email, redaction := Redaction.Default }
  else if id = "@ip" then some { ty := RuleType.Ip, redaction := Redaction.Default }
  else none

/-- `get_rule`: prefer the policy's own table, fall back to the builtin table. -/
def get_rule (b : BuiltinMap) (config : PiiConfig) (id : String) : Option RuleRef :=
  match List.lookup id config.rules with
  | some spec => some (RuleRef.new id spec)
  | none => Option.map (fun spec => RuleRef.new id spec) (b id)

/-- `collect_rules`, with an explicit fuel argument bounding the recursion depth
of the embedding: `none` means the fuel ran out, i.e. the source recursion did
not complete within that depth. Each recursive call of the source consumes one
unit of fuel; the sibling loop inside a `Multiple` runs at the inner depth. -/
def collect_rules (b : BuiltinMap) (config : PiiConfig) :
    Nat → List RuleRef → String → Option RuleRef → Option (List RuleRef)
  | 0, _, _, _ => none
  | fuel + 1, rules, rule_id, parent =>
    match get_rule b config rule_id with
    | none => some rules
    | some rule =>
      if containsRef rules rule then some rules
      else
        let merged :=
          match parent with
          | some p => RuleRef.for_parent rule p
          | none => rule
        match merged.ty with
        | RuleType.Multiple m =>
          List.foldlM
            (fun rs sub_id =>
              collect_rules b config fuel rs sub_id
                (if m.hide_inner then some merged else none))
            rules m.rules
        | RuleType.Alias a =>
          collect_rules b config fuel rules a.rule
            (if a.hide_inner then some merged else none)
        | RuleType.Unknown _ => some rules
        | _ => some (insertRef rules merged)

/-- Sequential expansion of a list of rule ids into one accumulator, as in the
per-selector loop of `CompiledPiiConfig::new` (and the loop inside `Multiple`). -/
def collect_rules_list (b : BuiltinMap) (config : PiiConfig) (fuel : Nat)
    (rules : List RuleRef) (ids : List String) (parent : Option RuleRef) :
    Option (List RuleRef) :=
  List.foldlM (fun rs sub_id => collect_rules b config fuel rs sub_id parent) rules ids

/-- The compiled policy: one entry per selector, in source order. -/
structure CompiledPiiConfig where
  applications : List (SelectorSpec × List RuleRef)
deriving DecidableEq

/-- The per-selector loop of `CompiledPiiConfig::new`: each selector starts from
a fresh empty set. -/
def compile_applications (b : BuiltinMap) (config : PiiConfig) (fuel : Nat) :
    List (SelectorSpec × List String) → Option (List (SelectorSpec × List RuleRef))
  | [] => some []
  | (selector, ids) :: rest =>
    match collect_rules_list b config fuel [] ids none with
    | none => none
    | some rule_set =>
      match compile_applications b config fuel rest with
      | none => none
      | some apps => some ((selector, rule_set) :: apps)

/-- `CompiledPiiConfig::new`: computes the compiled PII config. -/
def CompiledPiiConfig.new (b : BuiltinMap) (config : PiiConfig) (fuel : Nat) :
    Option CompiledPiiConfig :=
  Option.map CompiledPiiConfig.mk (compile_applications b config fuel config.applications)

/-- One step of the `force_compile` walk: the two pattern-bearing kinds force
their pattern to compile, every other kind is a no-op. -/
def check_rule_ref (r : RuleRef) : Except PiiConfigError Unit :=
  match r.ty with
  | RuleType.Pattern rule => rule.pattern.compiled
  | RuleType.RedactPair rule => rule.key_pattern.compiled
  | RuleType.Anything | RuleType.Imei | RuleType.Mac | RuleType.Uuid
  | RuleType.Email | RuleType.Ip | RuleType.Creditcard | RuleType.Iban
  | RuleType.Userpath | RuleType.Pemkey | RuleType.UrlAuth | RuleType.UsSsn
  | RuleType.Password | RuleType.Multiple _ | RuleType.Alias _
  | RuleType.Unknown _ => Except.ok ()

/-- The `?`-propagating loop of `force_compile` over a flat list of references. -/
def force_compile_list : List RuleRef → Except PiiConfigError Unit
  | [] => Except.ok ()
  | r :: rest =>
    match check_rule_ref r with
    | Except.error e => Except.error e
    | Except.ok () => force_compile_list rest

/-- `CompiledPiiConfig::force_compile`: walk every reference of every selector. -/
def CompiledPiiConfig.force_compile (self : CompiledPiiConfig) :
    Except PiiConfigError Unit :=
  force_compile_list (self.applications.flatMap (fun a => a.2))

/-- The references of a compiled config, in iteration order of `force_compile`. -/
def CompiledPiiConfig.refs (self : CompiledPiiConfig) : List RuleRef :=
  self.applications.flatMap (fun a => a.2)

/-- Terminal rule types: everything except the wrappers and `Unknown`. -/
def isTerminalTy : RuleType → Bool
  | RuleType.Multiple _ => false
  | RuleType.Alias _ => false
  | RuleType.Unknown _ => false
  | _ => true

/-- The named built-in detector kinds: terminal kinds other than pattern and
redact-pair. -/
def isBuiltinDetector : RuleType → Bool
  | RuleType.Anything | RuleType.Imei | RuleType.Mac | RuleType.Uuid
  | RuleType.Email | RuleType.Ip | RuleType.Creditcard | RuleType.Iban
  | RuleType.Userpath | RuleType.Pemkey | RuleType.UrlAuth | RuleType.UsSsn
  | RuleType.Password => true
  | _ => false

/-- The pattern-compilation failure carried by a reference, if any: the
spec-side description of what `force_compile` checks per reference. -/
def patternError (r : RuleRef) : Option PiiConfigError :=
  match r.ty with
  | RuleType.Pattern rule => rule.pattern.compile_result
  | RuleType.RedactPair rule => rule.key_pattern.compile_result
  | _ => none

/-- Spec-side description of `force_compile`: the first pattern-compilation
failure across all references, in iteration order. -/
def firstPatternError (c : CompiledPiiConfig) : Option PiiConfigError :=
  List.findSome? patternError c.refs

/-- A header value, modelled at the interface used by the source: `to_str_ok`
is the result of `v.to_str().ok()` (`none` when the value holds bytes that do
not convert to a string). -/
structure HeaderValue where
  to_str_ok : Option String
deriving DecidableEq

/-- A header map, modelled as an association list with first-match lookup,
as used through `HeaderMap::get`. -/
structure HeaderMap where
  entries : List (String × HeaderValue)
deriving DecidableEq

/-- `HeaderMap::get`. -/
def HeaderMap.get (m : HeaderMap) (name : String) : Option HeaderValue :=
  List.lookup name m.entries

/-- `ForwardedFor::VERCEL_FORWARDED_HEADER`. -/
def VERCEL_FORWARDED_HEADER : String := "X-Vercel-Forwarded-For"

/-- `ForwardedFor::FORWARDED_HEADER`. -/
def FORWARDED_HEADER : String := "X-Forwarded-For"

/-- `ForwardedFor::get_forwarded_for_ip`: prefer the Vercel header, fall back
to the plain forwarded header, then convert, then default to the empty string. -/
def ForwardedFor.get_forwarded_for_ip (header_map : HeaderMap) : String :=
  (Option.bind
    ((header_map.get VERCEL_FORWARDED_HEADER).orElse
      (fun _ => header_map.get FORWARDED_HEADER))
    (fun v => v.to_str_ok)).getD ""

/-- The scenario policy of the spec: `$message` applies `strip-emails`, which
aliases the builtin `@email` with `hide_inner` set and redaction `Mask`. -/
def scenario_config : PiiConfig :=
  { rules :=
      [("strip-emails",
        { ty := RuleType.Alias { rule := "@email", hide_inner := true }
          redaction := Redaction.Mask })]
    applications := [("$message", ["strip-emails"])] }

/-- A diamond policy: two top-level wrappers reaching the same terminal rule
`t` with different origins and redactions. -/
def diamond_config : PiiConfig :=
  { rules :=
      [("m1",
        { ty := RuleType.Alias { rule := "t", hide_inner := true }
          redaction := Redaction.Mask }),
       ("m2",
        { ty := RuleType.Alias { rule := "t", hide_inner := true }
          redaction := Redaction.Remove }),
       ("t", { ty := RuleType.Email, redaction := Redaction.Default })]
    applications := [("$message", ["m1", "m2"])] }

/-- A policy whose single rule is an alias of itself: a wrapper cycle that
never reaches a terminal rule. -/
def cycle_config : PiiConfig :=
  { rules :=
      [("cycle-rule",
        { ty := RuleType.Alias { rule := "cycle-rule", hide_inner := false }
          redaction := Redaction.Default })]
    applications := [("$string", ["cycle-rule"])] }

/-- A builtin table differing from `BUILTIN_RULES_MAP` exactly at `@email`. -/
def shadow_builtin : BuiltinMap := fun id =>
  if id = "@email" then some { ty := RuleType.Ip, redaction := Redaction.Remove }
  else BUILTIN_RULES_MAP id

/-- A policy whose own table shadows the builtin id `@email`. -/
def shadow_config : PiiConfig :=
  { rules := [("@email", { ty := RuleType.Mac, redaction := Redaction.Remove })]
    applications := [("$a", ["@email"])] }

/-- The strict order on references used by the sorted-set invariant: ascending id. -/
def RefLt (a b : RuleRef) : Prop := a.id < b.id

/-- Relation between the accumulator passed into `collect_rules` and the
accumulator it returns: existing entries are preserved unchanged (first reached
wins), new entries carry fresh ids, strict sortedness by id is preserved, and
all-terminal contents are preserved. -/
def CollectOut (rules out : List RuleRef) : Prop :=
  rules ⊆ out ∧
  (∀ e ∈ out, e ∈ rules ∨ ∀ e' ∈ rules, e'.id ≠ e.id) ∧
  (List.Pairwise RefLt rules → List.Pairwise RefLt out) ∧
  ((∀ e ∈ rules, isTerminalTy e.ty = true) → ∀ e ∈ out, isTerminalTy e.ty = true)

/-! ### Helper lemmas about reference identity, ordering, and set operations -/

theorem RuleRef.beq_iff (a b : RuleRef) : RuleRef.beq a b = true ↔ a.id = b.id := by
  simp [RuleRef.beq]

theorem RuleRef.cmp_eq_lt_iff (a b : RuleRef) :
    RuleRef.cmp a b = Ordering.lt ↔ a.id < b.id := by
  unfold RuleRef.cmp
  split
  · simp_all
  · split <;> simp_all

theorem RuleRef.cmp_eq_eq_iff (a b : RuleRef) :
    RuleRef.cmp a b = Ordering.eq ↔ a.id = b.id := by
  unfold RuleRef.cmp
  split
  · next h => simp; intro he; exact absurd he (ne_of_lt h)
  · split <;> simp_all

theorem RuleRef.cmp_eq_gt_iff (a b : RuleRef) :
    RuleRef.cmp a b = Ordering.gt ↔ b.id < a.id := by
  unfold RuleRef.cmp
  split
  · next h =>
    constructor
    · intro hx; exact absurd hx (by decide)
    · intro hlt; exact absurd h (lt_asymm hlt)
  · next h =>
    split
    · next he =>
      constructor
      · intro hx; exact absurd hx (by decide)
      · intro hlt; rw [he] at hlt; exact absurd hlt (lt_irrefl _)
    · next he =>
      constructor
      · intro _
        rcases lt_trichotomy a.id b.id with hlt | heq | hgt
        · exact absurd hlt h
        · exact absurd heq he
        · exact hgt
      · intro _; rfl

theorem containsRef_iff (rules : List RuleRef) (r : RuleRef) :
    containsRef rules r = true ↔ ∃ e ∈ rules, e.id = r.id := by
  simp [containsRef, List.any_eq_true, RuleRef.beq_iff]

theorem containsRef_congr (rules : List RuleRef) (a b : RuleRef) (h : a.id = b.id) :
    containsRef rules a = containsRef rules b := by
  simp [containsRef, RuleRef.beq, h]

theorem mem_insertRef (rules : List RuleRef) (r e : RuleRef)
    (h : e ∈ insertRef rules r) : e ∈ rules ∨ e = r := by
  induction rules with
  | nil =>
    simp only [insertRef, List.mem_singleton] at h
    exact Or.inr h
  | cons x xs ih =>
    cases hcmp : RuleRef.cmp r x with
    | lt =>
      simp only [insertRef, hcmp, List.mem_cons] at h
      rcases h with rfl | h
      · exact Or.inr rfl
      · exact Or.inl (List.mem_cons.mpr h)
    | eq =>
      simp only [insertRef, hcmp, List.mem_cons] at h
      exact Or.inl (List.mem_cons.mpr h)
    | gt =>
      simp only [insertRef, hcmp, List.mem_cons] at h
      rcases h with rfl | h
      · exact Or.inl (List.mem_cons.mpr (Or.inl rfl))
      · rcases ih h with h' | h'
        · exact Or.inl (List.mem_cons.mpr (Or.inr h'))
        · exact Or.inr h'

theorem mem_insertRef_of_mem (rules : List RuleRef) (r e : RuleRef)
    (h : e ∈ rules) : e ∈ insertRef rules r := by
  induction rules with
  | nil => exact absurd h (List.not_mem_nil e)
  | cons x xs ih =>
    cases hcmp : RuleRef.cmp r x with
    | lt =>
      simp only [insertRef, hcmp]
      exact List.mem_cons.mpr (Or.inr h)
    | eq =>
      simp only [insertRef, hcmp]
      exact h
    | gt =>
      simp only [insertRef, hcmp]
      rcases List.mem_cons.mp h with rfl | h'
      · exact List.mem_cons.mpr (Or.inl rfl)
      · exact List.mem_cons.mpr (Or.inr (ih h'))

theorem pairwise_insertRef (rules : List RuleRef) (r : RuleRef)
    (h : List.Pairwise RefLt rules) : List.Pairwise RefLt (insertRef rules r) := by
  induction rules with
  | nil => simp [insertRef, RefLt]
  | cons x xs ih =>
    rw [List.pairwise_cons] at h
    obtain ⟨hx, hxs⟩ := h
    cases hcmp : RuleRef.cmp r x with
    | lt =>
      simp only [insertRef, hcmp]
      have hrx : r.id < x.id := (RuleRef.cmp_eq_lt_iff r x).mp hcmp
      refine List.Pairwise.cons ?_ (List.Pairwise.cons hx hxs)
      intro e he
      rcases List.mem_cons.mp he with rfl | he'
      · exact hrx
      · exact lt_trans hrx (hx e he')
    | eq =>
      simp only [insertRef, hcmp]
      exact List.Pairwise.cons hx hxs
    | gt =>
      simp only [insertRef, hcmp]
      have hxr : x.id < r.id := (RuleRef.cmp_eq_gt_iff r x).mp hcmp
      refine List.Pairwise.cons ?_ (ih hxs)
      intro e he
      rcases mem_insertRef xs r e he with he' | rfl
      · exact hx e he'
      · exact hxr

theorem collectOut_refl (rules : List RuleRef) : CollectOut rules rules := by
  refine ⟨fun e he => he, fun e he => Or.inl he, fun h => h, fun h => h⟩

theorem collectOut_trans (a b c : List RuleRef)
    (hab : CollectOut a b) (hbc : CollectOut b c) : CollectOut a c := by
  obtain ⟨s1, f1, p1, t1⟩ := hab
  obtain ⟨s2, f2, p2, t2⟩ := hbc
  refine ⟨fun e he => s2 (s1 he), ?_, fun h => p2 (p1 h), fun h => t2 (t1 h)⟩
  intro e he
  rcases f2 e he with hb | hfresh
  · exact f1 e hb
  · exact Or.inr (fun e' he' => hfresh e' (s1 he'))

theorem collectOut_insert (rules : List RuleRef) (r : RuleRef)
    (hc : containsRef rules r = false) (ht : isTerminalTy r.ty = true) :
    CollectOut rules (insertRef rules r) := by
  have hfresh : ∀ e' ∈ rules, e'.id ≠ r.id := by
    intro e' he' heq
    have : containsRef rules r = true := (containsRef_iff rules r).mpr ⟨e', he', heq⟩
    rw [hc] at this
    exact Bool.false_ne_true this
  refine ⟨fun {e} he => mem_insertRef_of_mem rules r e he, ?_,
    pairwise_insertRef rules r, ?_⟩
  · intro e he
    rcases mem_insertRef rules r e he with h | rfl
    · exact Or.inl h
    · exact Or.inr hfresh
  · intro hall e he
    rcases mem_insertRef rules r e he with h | rfl
    · exact hall e h
    · exact ht

/-! ### The accumulator invariant of `collect_rules` -/

theorem collect_rules_out (b : BuiltinMap) (c : PiiConfig) :
    ∀ (fuel : Nat) (rules : List RuleRef) (id : String) (parent : Option RuleRef)
      (out : List RuleRef),
      collect_rules b c fuel rules id parent = some out → CollectOut rules out := by
  intro fuel
  induction fuel with
  | zero =>
    intro rules id parent out h
    simp [collect_rules] at h
  | succ f ih =>
    have hlist : ∀ (ids : List String) (rules : List RuleRef) (parent : Option RuleRef)
        (out : List RuleRef),
        List.foldlM (fun rs i => collect_rules b c f rs i parent) rules ids = some out →
        CollectOut rules out := by
      intro ids
      induction ids with
      | nil =>
        intro rules parent out h
        simp only [List.foldlM_nil] at h
        cases h
        exact collectOut_refl _
      | cons i rest ihl =>
        intro rules parent out h
        rw [List.foldlM_cons] at h
        cases hm : collect_rules b c f rules i parent with
        | none => rw [hm] at h; simp at h
        | some mid =>
          rw [hm] at h
          exact collectOut_trans rules mid out (ih rules i parent mid hm)
            (ihl mid parent out h)
    intro rules id parent out h
    simp only [collect_rules] at h
    cases hg : get_rule b c id with
    | none =>
      rw [hg] at h
      cases h
      exact collectOut_refl _
    | some r =>
      rw [hg] at h
      cases hcont : containsRef rules r with
      | true =>
        simp only [hcont, if_true] at h
        cases h
        exact collectOut_refl _
      | false =>
        simp only [hcont, Bool.false_eq_true, if_false] at h
        cases parent with
        | none =>
          split at h
          · exact hlist _ rules _ out h
          · exact ih rules _ _ out h
          · cases h; exact collectOut_refl _
          · cases h
            refine collectOut_insert rules r hcont ?_
            cases hty : r.ty <;> simp_all [isTerminalTy]
        | some p =>
          split at h
          · exact hlist _ rules _ out h
          · exact ih rules _ _ out h
          · cases h; exact collectOut_refl _
          · cases h
            have hcont' : containsRef rules (RuleRef.for_parent r p) = false := by
              rw [containsRef_congr rules (RuleRef.for_parent r p) r rfl]
              exact hcont
            refine collectOut_insert rules (RuleRef.for_parent r p) hcont' ?_
            have hty' : (RuleRef.for_parent r p).ty = r.ty := rfl
            rw [hty']
            cases hty : r.ty <;> simp_all [isTerminalTy, RuleRef.for_parent]

theorem collect_rules_list_out (b : BuiltinMap) (c : PiiConfig) (fuel : Nat) :
    ∀ (ids : List String) (rules : List RuleRef) (parent : Option RuleRef)
      (out : List RuleRef),
      collect_rules_list b c fuel rules ids parent = some out → CollectOut rules out := by
  intro ids
  induction ids with
  | nil =>
    intro rules parent out h
    simp only [collect_rules_list, List.foldlM_nil] at h
    cases h
    exact collectOut_refl _
  | cons i rest ihl =>
    intro rules parent out h
    simp only [collect_rules_list, List.foldlM_cons] at h
    cases hm : collect_rules b c fuel rules i parent with
    | none => rw [hm] at h; simp at h
    | some mid =>
      rw [hm] at h
      exact collectOut_trans rules mid out
        (collect_rules_out b c fuel rules i parent mid hm) (ihl mid parent out h)

theorem compile_applications_spec (b : BuiltinMap) (c : PiiConfig) (fuel : Nat) :
    ∀ (apps : List (SelectorSpec × List String))
      (out : List (SelectorSpec × List RuleRef)),
      compile_applications b c fuel apps = some out →
      out.map Prod.fst = apps.map Prod.fst ∧
      ∀ entry ∈ out, List.Pairwise RefLt entry.2 ∧
        ∀ r ∈ entry.2, isTerminalTy r.ty = true := by
  intro apps
  induction apps with
  | nil =>
    intro out h
    simp only [compile_applications] at h
    cases h
    simp
  | cons hd rest ihl =>
    intro out h
    obtain ⟨selector, ids⟩ := hd
    simp only [compile_applications] at h
    cases hset : collect_rules_list b c fuel [] ids none with
    | none => rw [hset] at h; simp at h
    | some rule_set =>
      rw [hset] at h
      cases hrest : compile_applications b c fuel rest with
      | none => rw [hrest] at h; simp at h
      | some apps' =>
        rw [hrest] at h
        cases h
        obtain ⟨hmap, hall⟩ := ihl apps' hrest
        obtain ⟨-, -, hsort, hterm⟩ :=
          collect_rules_list_out b c fuel ids [] none rule_set hset
        refine ⟨by simp [hmap], ?_⟩
        intro entry hentry
        rcases List.mem_cons.mp hentry with rfl | hmem
        · exact ⟨hsort (by simp), hterm (by simp)⟩
        · exact hall entry hmem

/-! ### Builtin shadowing: lookup precedence at every depth -/

theorem get_rule_congr (b b' : BuiltinMap) (c : PiiConfig)
    (hb : ∀ i, List.lookup i c.rules = none → b i = b' i) (i : String) :
    get_rule b c i = get_rule b' c i := by
  unfold get_rule
  cases hl : List.lookup i c.rules with
  | some spec => rfl
  | none => rw [hb i hl]

theorem collect_rules_congr (b b' : BuiltinMap) (c : PiiConfig)
    (hb : ∀ i, List.lookup i c.rules = none → b i = b' i) :
    ∀ (fuel : Nat) (rules : List RuleRef) (id : String) (parent : Option RuleRef),
      collect_rules b c fuel rules id parent = collect_rules b' c fuel rules id parent := by
  intro fuel
  induction fuel with
  | zero => intro rules id parent; simp [collect_rules]
  | succ f ih =>
    intro rules id parent
    simp only [collect_rules]
    rw [get_rule_congr b b' c hb id]
    cases get_rule b' c id with
    | none => rfl
    | some r =>
      simp only [ih]

/-! ### Step lemmas and list-cons lemmas for `collect_rules` -/

theorem collect_rules_list_nil (b : BuiltinMap) (c : PiiConfig) (fuel : Nat)
    (rules : List RuleRef) (parent : Option RuleRef) :
    collect_rules_list b c fuel rules [] parent = some rules := rfl

theorem collect_rules_list_cons (b : BuiltinMap) (c : PiiConfig) (fuel : Nat)
    (rules : List RuleRef) (i : String) (rest : List String) (parent : Option RuleRef) :
    collect_rules_list b c fuel rules (i :: rest) parent =
      (collect_rules b c fuel rules i parent).bind
        (fun mid => collect_rules_list b c fuel mid rest parent) := by
  simp only [collect_rules_list, List.foldlM_cons]
  rfl

theorem collect_rules_absent_step (b : BuiltinMap) (c : PiiConfig) (fuel : Nat)
    (rules : List RuleRef) (id : String) (parent : Option RuleRef)
    (hg : get_rule b c id = none) :
    collect_rules b c (fuel + 1) rules id parent = some rules := by
  simp [collect_rules, hg]

theorem collect_rules_unknown_step (b : BuiltinMap) (c : PiiConfig) (fuel : Nat)
    (rules : List RuleRef) (id : String) (parent : Option RuleRef) (r : RuleRef)
    (tag : String) (hg : get_rule b c id = some r) (hty : r.ty = RuleType.Unknown tag) :
    collect_rules b c (fuel + 1) rules id parent = some rules := by
  simp only [collect_rules, hg]
  cases hcont : containsRef rules r with
  | true => simp [hcont]
  | false =>
    cases parent with
    | none => simp [hcont, hty]
    | some p => simp [hcont, RuleRef.for_parent, hty]

theorem collect_rules_terminal_step (b : BuiltinMap) (c : PiiConfig) (fuel : Nat)
    (rules : List RuleRef) (id : String) (parent : Option RuleRef) (r : RuleRef)
    (hg : get_rule b c id = some r) (ht : isTerminalTy r.ty = true)
    (hc : containsRef rules r = false) :
    collect_rules b c (fuel + 1) rules id parent =
      some (insertRef rules
        (match parent with
         | some p => RuleRef.for_parent r p
         | none => r)) := by
  simp only [collect_rules, hg, hc, Bool.false_eq_true, if_false]
  cases parent with
  | none => cases hty : r.ty <;> simp_all [isTerminalTy]
  | some p => cases hty : r.ty <;> simp_all [isTerminalTy, RuleRef.for_parent]

theorem collect_rules_list_skip (b : BuiltinMap) (c : PiiConfig) (fuel : Nat)
    (badid : String)
    (h1 : ∀ (rules : List RuleRef) (parent : Option RuleRef),
      collect_rules b c (fuel + 1) rules badid parent = some rules) :
    ∀ (pre : List String) (rules : List RuleRef) (parent : Option RuleRef)
      (post : List String),
      collect_rules_list b c (fuel + 1) rules (pre ++ badid :: post) parent =
        collect_rules_list b c (fuel + 1) rules (pre ++ post) parent := by
  intro pre
  induction pre with
  | nil =>
    intro rules parent post
    rw [List.nil_append, List.nil_append, collect_rules_list_cons, h1 rules parent]
    rfl
  | cons i pre' ih =>
    intro rules parent post
    rw [List.cons_append, List.cons_append, collect_rules_list_cons,
      collect_rules_list_cons]
    cases hm : collect_rules b c (fuel + 1) rules i parent with
    | none => rfl
    | some mid => simp only [Option.bind]; exact ih mid parent post

/-! ### Divergence of `collect_rules` on a pure wrapper cycle -/

theorem cycle_collect_none :
    ∀ (fuel : Nat) (parent : Option RuleRef),
      collect_rules BUILTIN_RULES_MAP cycle_config fuel [] "cycle-rule" parent = none := by
  intro fuel
  induction fuel with
  | zero => intro parent; simp [collect_rules]
  | succ f ih =>
    intro parent
    have hg : get_rule BUILTIN_RULES_MAP cycle_config "cycle-rule" =
        some (RuleRef.new "cycle-rule"
          { ty := RuleType.Alias { rule := "cycle-rule", hide_inner := false }
            redaction := Redaction.Default }) := by decide
    simp only [collect_rules, hg]
    cases parent with
    | none => exact ih none
    | some p => exact ih none

/-! ### `force_compile` computes the first pattern-compilation failure -/

theorem force_compile_list_eq (l : List RuleRef) :
    force_compile_list l =
      match List.findSome? patternError l with
      | some e => Except.error e
      | none => Except.ok () := by
  induction l with
  | nil => rfl
  | cons r rest ih =>
    cases hty : r.ty
    case Pattern pr =>
      simp only [force_compile_list, check_rule_ref, hty, List.findSome?_cons,
        patternError, Pattern.compiled]
      cases pr.pattern.compile_result <;> simp [ih]
    case RedactPair pr =>
      simp only [force_compile_list, check_rule_ref, hty, List.findSome?_cons,
        patternError, Pattern.compiled]
      cases pr.key_pattern.compile_result <;> simp [ih]
    all_goals
      simp only [force_compile_list, check_rule_ref, hty, List.findSome?_cons,
        patternError]
      exact ih

/-! ### Claim theorems -/

/-- Claim C1: rule lookup resolves an id to the policy's own specification when
the policy's table contains it, falls back to the builtin table otherwise, and
reports absence when neither contains it; and the user-over-builtin precedence
holds at every recursive expansion step: builtin entries for ids shadowed by the
policy's table can never influence `collect_rules`, at any depth. -/
theorem c1_lookup_precedence (b b' : BuiltinMap) (config : PiiConfig) (id : String)
    (hshadow : ∀ i, List.lookup i config.rules = none → b i = b' i) :
    (∀ spec, List.lookup id config.rules = some spec →
      get_rule b config id = some (RuleRef.new id spec)) ∧
    (List.lookup id config.rules = none →
      get_rule b config id = Option.map (fun spec => RuleRef.new id spec) (b id)) ∧
    (List.lookup id config.rules = none → b id = none → get_rule b config id = none) ∧
    (∀ (fuel : Nat) (rules : List RuleRef) (parent : Option RuleRef),
      collect_rules b config fuel rules id parent =
        collect_rules b' config fuel rules id parent) := by
  refine ⟨?_, ?_, ?_, ?_⟩
  · intro spec hl; simp [get_rule, hl]
  · intro hl; simp [get_rule, hl]
  · intro hl hb; simp [get_rule, hl, hb]
  · intro fuel rules parent
    exact collect_rules_congr b b' config hshadow fuel rules id parent

/-- Witness for C1 at a concrete policy shadowing the builtin id `@email`. -/
theorem c1_witness :
    get_rule BUILTIN_RULES_MAP shadow_config "@email" =
      some (RuleRef.new "@email" { ty := RuleType.Mac, redaction := Redaction.Remove }) ∧
    get_rule BUILTIN_RULES_MAP shadow_config "@ip" =
      Option.map (fun spec => RuleRef.new "@ip" spec) (BUILTIN_RULES_MAP "@ip") ∧
    get_rule BUILTIN_RULES_MAP shadow_config "@nothere" = none ∧
    collect_rules BUILTIN_RULES_MAP shadow_config 3 [] "@email" none =
      collect_rules shadow_builtin shadow_config 3 [] "@email" none := by
  have hshadow : ∀ i, List.lookup i shadow_config.rules = none →
      BUILTIN_RULES_MAP i = shadow_builtin i := by
    intro i hl
    by_cases hi : i = "@email"
    · subst hi; exact absurd hl (by decide)
    · simp [shadow_builtin, hi]
  refine ⟨(c1_lookup_precedence BUILTIN_RULES_MAP shadow_builtin shadow_config
      "@email" hshadow).1 _ (by decide),
    (c1_lookup_precedence BUILTIN_RULES_MAP shadow_builtin shadow_config
      "@ip" hshadow).2.1 (by decide),
    (c1_lookup_precedence BUILTIN_RULES_MAP shadow_builtin shadow_config
      "@nothere" hshadow).2.2.1 (by decide) (by decide),
    (c1_lookup_precedence BUILTIN_RULES_MAP shadow_builtin shadow_config
      "@email" hshadow).2.2.2 3 [] none⟩

/-- Claim C2: the compiled set holds at most one reference per id (it stays
strictly sorted by id), entries already reached are preserved unchanged so the
first traversal path wins, new entries have ids fresh for the incoming
accumulator, reference equality and ordering are decided by the id field alone,
and on a concrete diamond policy two top-level ids reaching the same terminal
produce exactly one reference, the one from the first path. -/
theorem c2_dedup_first_wins (b : BuiltinMap) (config : PiiConfig) (fuel : Nat)
    (rules : List RuleRef) (id : String) (parent : Option RuleRef)
    (out : List RuleRef)
    (hout : collect_rules b config fuel rules id parent = some out)
    (hsorted : List.Pairwise RefLt rules) :
    (∀ e ∈ rules, e ∈ out) ∧
    (∀ e ∈ out, e ∈ rules ∨ ∀ e' ∈ rules, e'.id ≠ e.id) ∧
    List.Pairwise RefLt out ∧
    (∀ x y : RuleRef, (RuleRef.beq x y = true ↔ x.id = y.id) ∧
      (RuleRef.cmp x y = Ordering.eq ↔ x.id = y.id) ∧
      (RuleRef.cmp x y = Ordering.lt ↔ x.id < y.id)) ∧
    CompiledPiiConfig.new BUILTIN_RULES_MAP diamond_config 4 =
      some ⟨[("$message",
        [{ id := "t", origin := "m1", ty := RuleType.Email,
           redaction := Redaction.Mask }])]⟩ := by
  obtain ⟨hsub, hfresh, hpair, -⟩ :=
    collect_rules_out b config fuel rules id parent out hout
  refine ⟨fun e he => hsub he, hfresh, hpair hsorted, ?_, by decide⟩
  intro x y
  exact ⟨RuleRef.beq_iff x y, RuleRef.cmp_eq_eq_iff x y, RuleRef.cmp_eq_lt_iff x y⟩

/-- Witness for C2 on the diamond policy's first top-level id. -/
theorem c2_witness :
    CompiledPiiConfig.new BUILTIN_RULES_MAP diamond_config 4 =
      some ⟨[("$message",
        [{ id := "t", origin := "m1", ty := RuleType.Email,
           redaction := Redaction.Mask }])]⟩ ∧
    List.Pairwise RefLt
      [{ id := "t", origin := "m1", ty := RuleType.Email,
         redaction := Redaction.Mask }] := by
  have h := c2_dedup_first_wins BUILTIN_RULES_MAP diamond_config 4 [] "m1" none
    [{ id := "t", origin := "m1", ty := RuleType.Email,
       redaction := Redaction.Mask }] (by decide) (by simp)
  exact ⟨h.2.2.2.2, h.2.2.1⟩

/-- Claim C3: the parent merge keeps the candidate's id and ty, takes the origin
from the (possibly already-merged) parent, and takes the parent's redaction
unless that redaction is `Default`, in which case the candidate's own redaction
is kept; a terminal rule reached with a parent is inserted as the merged
reference, and reached without a parent is inserted unchanged. -/
theorem c3_parent_merge (self parent : RuleRef) (b : BuiltinMap)
    (config : PiiConfig) (fuel : Nat) (rules : List RuleRef) (id : String)
    (r : RuleRef) (hg : get_rule b config id = some r)
    (ht : isTerminalTy r.ty = true) (hc : containsRef rules r = false) :
    ((RuleRef.for_parent self parent).id = self.id ∧
     (RuleRef.for_parent self parent).ty = self.ty ∧
     (RuleRef.for_parent self parent).origin = parent.origin ∧
     (parent.redaction = Redaction.Default →
       (RuleRef.for_parent self parent).redaction = self.redaction) ∧
     (parent.redaction ≠ Redaction.Default →
       (RuleRef.for_parent self parent).redaction = parent.redaction)) ∧
    collect_rules b config (fuel + 1) rules id (some parent) =
      some (insertRef rules (RuleRef.for_parent r parent)) ∧
    collect_rules b config (fuel + 1) rules id none =
      some (insertRef rules r) := by
  refine ⟨⟨rfl, rfl, rfl, ?_, ?_⟩, ?_, ?_⟩
  · intro h; simp [RuleRef.for_parent, h]
  · intro h
    unfold RuleRef.for_parent
    cases hr : parent.redaction <;> simp_all
  · exact collect_rules_terminal_step b config fuel rules id (some parent) r hg ht hc
  · exact collect_rules_terminal_step b config fuel rules id none r hg ht hc

/-- Witness for C3: the builtin email rule reached under the `strip-emails`
wrapper of the scenario policy. -/
theorem c3_witness :
    (RuleRef.for_parent
      { id := "t", origin := "t", ty := RuleType.Email, redaction := Redaction.Default }
      { id := "strip-emails", origin := "strip-emails",
        ty := RuleType.Alias { rule := "@email", hide_inner := true },
        redaction := Redaction.Mask }).origin = "strip-emails" ∧
    collect_rules BUILTIN_RULES_MAP scenario_config 1 [] "@email"
      (some { id := "strip-emails", origin := "strip-emails",
              ty := RuleType.Alias { rule := "@email", hide_inner := true },
              redaction := Redaction.Mask }) =
      some (insertRef []
        (RuleRef.for_parent
          (RuleRef.new "@email" { ty := RuleType.Email, redaction := Redaction.Default })
          { id := "strip-emails", origin := "strip-emails",
            ty := RuleType.Alias { rule := "@email", hide_inner := true },
            redaction := Redaction.Mask })) := by
  have h := c3_parent_merge
    { id := "t", origin := "t", ty := RuleType.Email, redaction := Redaction.Default }
    { id := "strip-emails", origin := "strip-emails",
      ty := RuleType.Alias { rule := "@email", hide_inner := true },
      redaction := Redaction.Mask }
    BUILTIN_RULES_MAP scenario_config 0 [] "@email"
    (RuleRef.new "@email" { ty := RuleType.Email, redaction := Redaction.Default })
    (by decide) (by decide) (by decide)
  exact ⟨h.1.2.2.1, h.2.1⟩

/-- Claim C4 (refuting unconditional termination): on a policy whose only rule
is an alias of itself, `collect_rules` never completes at any recursion depth,
so `CompiledPiiConfig.new` yields no result for any fuel. -/
theorem c4_wrapper_cycle_divergence :
    ∀ fuel : Nat, CompiledPiiConfig.new BUILTIN_RULES_MAP cycle_config fuel = none := by
  intro fuel
  have hl : collect_rules_list BUILTIN_RULES_MAP cycle_config fuel []
      ["cycle-rule"] none = none := by
    rw [collect_rules_list_cons, cycle_collect_none fuel none]
    rfl
  show Option.map CompiledPiiConfig.mk
    (compile_applications BUILTIN_RULES_MAP cycle_config fuel
      cycle_config.applications) = none
  rw [show cycle_config.applications = [("$string", ["cycle-rule"])] from rfl]
  simp [compile_applications, hl]

/-- Claim C5: validation returns the compilation failure of the first reference
(in iteration order) whose type is a pattern rule or a redact-pair rule and
whose embedded pattern fails to compile, and succeeds exactly when no such
reference exists; references of built-in detector kinds are no-ops for the
pass, so a compiled policy holding only such references always validates. -/
theorem c5_validation (c : CompiledPiiConfig) :
    (CompiledPiiConfig.force_compile c =
      match firstPatternError c with
      | some e => Except.error e
      | none => Except.ok ()) ∧
    (∀ e, CompiledPiiConfig.force_compile c = Except.error e ↔
      firstPatternError c = some e) ∧
    ((∀ r ∈ c.refs, isBuiltinDetector r.ty = true) →
      CompiledPiiConfig.force_compile c = Except.ok ()) ∧
    (∀ r : RuleRef, isBuiltinDetector r.ty = true →
      check_rule_ref r = Except.ok ()) := by
  have hmain : CompiledPiiConfig.force_compile c =
      match firstPatternError c with
      | some e => Except.error e
      | none => Except.ok () := by
    unfold CompiledPiiConfig.force_compile firstPatternError CompiledPiiConfig.refs
    exact force_compile_list_eq _
  refine ⟨hmain, ?_, ?_, ?_⟩
  · intro e
    rw [hmain]
    cases hf : firstPatternError c <;> simp
  · intro hall
    have hnone : firstPatternError c = none := by
      unfold firstPatternError
      rw [List.findSome?_eq_none_iff]
      intro r hr
      have hb := hall r hr
      cases hty : r.ty <;> simp_all [patternError, isBuiltinDetector]
    rw [hmain, hnone]
  · intro r hb
    cases hty : r.ty <;> simp_all [check_rule_ref, isBuiltinDetector]

/-- Witness for C5: a detector-only compiled policy validates, and a compiled
policy with one failing pattern reports that failure. -/
theorem c5_witness :
    CompiledPiiConfig.force_compile
      ⟨[("$a", [{ id := "@email", origin := "@email", ty := RuleType.Email,
                  redaction := Redaction.Default }])]⟩ = Except.ok () ∧
    CompiledPiiConfig.force_compile
      ⟨[("$p", [{ id := "p", origin := "p",
                  ty := RuleType.Pattern ⟨⟨"[", some ⟨"bad pattern"⟩⟩⟩,
                  redaction := Redaction.Default }])]⟩ =
      Except.error ⟨"bad pattern"⟩ := by
  constructor
  · exact (c5_validation _).2.2.1 (by decide)
  · exact ((c5_validation _).2.1 ⟨"bad pattern"⟩).mpr (by decide)

/-- Claim C6: compilation is deterministic; when it completes, the compiled
policy lists one entry per selector in the source policy's application order,
and within each selector the references are strictly ascending by id. -/
theorem c6_deterministic_ordered (b : BuiltinMap) (config : PiiConfig)
    (fuel : Nat) (compiled : CompiledPiiConfig)
    (h : CompiledPiiConfig.new b config fuel = some compiled) :
    CompiledPiiConfig.new b config fuel = CompiledPiiConfig.new b config fuel ∧
    compiled.applications.map Prod.fst = config.applications.map Prod.fst ∧
    ∀ entry ∈ compiled.applications, List.Pairwise RefLt entry.2 := by
  unfold CompiledPiiConfig.new at h
  cases happ : compile_applications b config fuel config.applications with
  | none => rw [happ] at h; simp at h
  | some apps =>
    rw [happ] at h
    simp only [Option.map_some', Option.some.injEq] at h
    obtain ⟨hmap, hall⟩ := compile_applications_spec b config fuel
      config.applications apps happ
    subst h
    exact ⟨rfl, hmap, fun entry he => (hall entry he).1⟩

/-- Witness for C6 on the scenario policy. -/
theorem c6_witness :
    (CompiledPiiConfig.mk [("$message",
      [{ id := "@email", origin := "strip-emails", ty := RuleType.Email,
         redaction := Redaction.Mask }])]).applications.map Prod.fst =
      scenario_config.applications.map Prod.fst ∧
    List.Pairwise RefLt
      [{ id := "@email", origin := "strip-emails", ty := RuleType.Email,
         redaction := Redaction.Mask }] := by
  have h := c6_deterministic_ordered BUILTIN_RULES_MAP scenario_config 4
    (CompiledPiiConfig.mk [("$message",
      [{ id := "@email", origin := "strip-emails", ty := RuleType.Email,
         redaction := Redaction.Mask }])]) (by decide)
  exact ⟨h.2.1, h.2.2 ("$message",
    [{ id := "@email", origin := "strip-emails", ty := RuleType.Email,
       redaction := Redaction.Mask }]) (by simp)⟩

/-- Claim C7: expanding a rule id that resolves to nothing, or resolves to an
`Unknown`-typed specification, leaves the accumulator unchanged and never
raises an error, and siblings listed before or after it in a rule-id list are
still expanded exactly as if the bad id were not listed. -/
theorem c7_lenient_resolution (b : BuiltinMap) (config : PiiConfig) (fuel : Nat)
    (rules : List RuleRef) (parent : Option RuleRef) (badid : String)
    (pre post : List String)
    (hbad : get_rule b config badid = none ∨
      ∃ r tag, get_rule b config badid = some r ∧ r.ty = RuleType.Unknown tag) :
    collect_rules b config (fuel + 1) rules badid parent = some rules ∧
    collect_rules_list b config (fuel + 1) rules (pre ++ badid :: post) parent =
      collect_rules_list b config (fuel + 1) rules (pre ++ post) parent := by
  have h1 : ∀ (rules : List RuleRef) (parent : Option RuleRef),
      collect_rules b config (fuel + 1) rules badid parent = some rules := by
    intro rules parent
    rcases hbad with hg | ⟨r, tag, hg, hty⟩
    · exact collect_rules_absent_step b config fuel rules badid parent hg
    · exact collect_rules_unknown_step b config fuel rules badid parent r tag hg hty
  exact ⟨h1 rules parent,
    collect_rules_list_skip b config fuel badid h1 pre rules parent post⟩

/-- Witness for C7: a dangling id between two live siblings of the diamond
policy contributes nothing and does not disturb them. -/
theorem c7_witness :
    collect_rules BUILTIN_RULES_MAP diamond_config 4 [] "no-such-rule" none =
      some [] ∧
    collect_rules_list BUILTIN_RULES_MAP diamond_config 4 []
        (["m1"] ++ "no-such-rule" :: ["m2"]) none =
      collect_rules_list BUILTIN_RULES_MAP diamond_config 4 []
        (["m1"] ++ ["m2"]) none := by
  exact c7_lenient_resolution BUILTIN_RULES_MAP diamond_config 3 [] none
    "no-such-rule" ["m1"] ["m2"] (Or.inl (by decide))

/-- Claim C8: every reference stored in a compiled policy has a terminal type:
never `Multiple`, `Alias`, or `Unknown`; and `isTerminalTy` says exactly that. -/
theorem c8_terminal_only (b : BuiltinMap) (config : PiiConfig) (fuel : Nat)
    (compiled : CompiledPiiConfig)
    (h : CompiledPiiConfig.new b config fuel = some compiled) :
    (∀ entry ∈ compiled.applications, ∀ r ∈ entry.2,
      (∀ m, r.ty ≠ RuleType.Multiple m) ∧ (∀ a, r.ty ≠ RuleType.Alias a) ∧
      (∀ tag, r.ty ≠ RuleType.Unknown tag)) ∧
    (∀ t : RuleType, isTerminalTy t = true ↔
      ((∀ m, t ≠ RuleType.Multiple m) ∧ (∀ a, t ≠ RuleType.Alias a) ∧
       (∀ tag, t ≠ RuleType.Unknown tag))) := by
  have hiff : ∀ t : RuleType, isTerminalTy t = true ↔
      ((∀ m, t ≠ RuleType.Multiple m) ∧ (∀ a, t ≠ RuleType.Alias a) ∧
       (∀ tag, t ≠ RuleType.Unknown tag)) := by
    intro t
    cases t <;> simp [isTerminalTy]
  refine ⟨?_, hiff⟩
  unfold CompiledPiiConfig.new at h
  cases happ : compile_applications b config fuel config.applications with
  | none => rw [happ] at h; simp at h
  | some apps =>
    rw [happ] at h
    simp only [Option.map_some', Option.some.injEq] at h
    obtain ⟨-, hall⟩ := compile_applications_spec b config fuel
      config.applications apps happ
    subst h
    intro entry he r hr
    exact (hiff r.ty).mp ((hall entry he).2 r hr)

/-- Witness for C8 on the scenario policy's compiled reference. -/
theorem c8_witness :
    (RuleType.Email ≠ RuleType.Multiple { rules := ["x"], hide_inner := true }) ∧
    (RuleType.Email ≠ RuleType.Alias { rule := "x", hide_inner := true }) ∧
    (RuleType.Email ≠ RuleType.Unknown "x") := by
  have h := c8_terminal_only BUILTIN_RULES_MAP scenario_config 4
    (CompiledPiiConfig.mk [("$message",
      [{ id := "@email", origin := "strip-emails", ty := RuleType.Email,
         redaction := Redaction.Mask }])]) (by decide)
  have h2 := h.1 ("$message",
    [{ id := "@email", origin := "strip-emails", ty := RuleType.Email,
       redaction := Redaction.Mask }]) (by simp)
    { id := "@email", origin := "strip-emails", ty := RuleType.Email,
      redaction := Redaction.Mask } (by simp)
  exact ⟨h2.1 _, h2.2.1 _, h2.2.2 _⟩

/-- Claim C9: on the scenario policy, for every sufficient recursion depth,
compilation produces for `$message` exactly one reference, with id `@email`,
origin `strip-emails`, type `Email`, and redaction `Mask`. -/
theorem c9_scenario :
    ∀ fuel : Nat,
      CompiledPiiConfig.new BUILTIN_RULES_MAP scenario_config (fuel + 2) =
        some ⟨[("$message",
          [{ id := "@email", origin := "strip-emails", ty := RuleType.Email,
             redaction := Redaction.Mask }])]⟩ := by
  intro fuel
  have h1 : collect_rules BUILTIN_RULES_MAP scenario_config (fuel + 1) [] "@email"
      (some { id := "strip-emails", origin := "strip-emails",
              ty := RuleType.Alias { rule := "@email", hide_inner := true },
              redaction := Redaction.Mask }) =
      some [{ id := "@email", origin := "strip-emails", ty := RuleType.Email,
              redaction := Redaction.Mask }] := by
    refine (collect_rules_terminal_step BUILTIN_RULES_MAP scenario_config fuel []
      "@email"
      (some { id := "strip-emails", origin := "strip-emails",
              ty := RuleType.Alias { rule := "@email", hide_inner := true },
              redaction := Redaction.Mask })
      (RuleRef.new "@email" { ty := RuleType.Email, redaction := Redaction.Default })
      (by decide) (by decide) (by decide)).trans (by decide)
  have h2 : collect_rules BUILTIN_RULES_MAP scenario_config (fuel + 2) []
      "strip-emails" none =
      some [{ id := "@email", origin := "strip-emails", ty := RuleType.Email,
              redaction := Redaction.Mask }] := by
    have hg : get_rule BUILTIN_RULES_MAP scenario_config "strip-emails" =
        some (RuleRef.new "strip-emails"
          { ty := RuleType.Alias { rule := "@email", hide_inner := true }
            redaction := Redaction.Mask }) := by decide
    simp only [collect_rules, hg]
    exact h1
  have hlist : collect_rules_list BUILTIN_RULES_MAP scenario_config (fuel + 2) []
      ["strip-emails"] none =
      some [{ id := "@email", origin := "strip-emails", ty := RuleType.Email,
              redaction := Redaction.Mask }] := by
    rw [collect_rules_list_cons, h2]
    rfl
  show Option.map CompiledPiiConfig.mk
    (compile_applications BUILTIN_RULES_MAP scenario_config (fuel + 2)
      scenario_config.applications) = _
  rw [show scenario_config.applications = [("$message", ["strip-emails"])] from rfl]
  simp [compile_applications, hlist]

/-- Claim C10: the forwarded-for extractor totally returns a string and prefers
the `X-Vercel-Forwarded-For` header: when that header is present its converted
value is returned, and a value that does not convert yields the empty string
with no fallback; when it is absent, the `X-Forwarded-For` value is returned
when present and convertible; otherwise the empty string is returned. -/
theorem c10_forwarded_for (m : HeaderMap) (v : HeaderValue) (s : String) :
    (m.get VERCEL_FORWARDED_HEADER = some v → v.to_str_ok = some s →
      ForwardedFor.get_forwarded_for_ip m = s) ∧
    (m.get VERCEL_FORWARDED_HEADER = some v → v.to_str_ok = none →
      ForwardedFor.get_forwarded_for_ip m = "") ∧
    (m.get VERCEL_FORWARDED_HEADER = none → m.get FORWARDED_HEADER = some v →
      v.to_str_ok = some s → ForwardedFor.get_forwarded_for_ip m = s) ∧
    (m.get VERCEL_FORWARDED_HEADER = none → m.get FORWARDED_HEADER = some v →
      v.to_str_ok = none → ForwardedFor.get_forwarded_for_ip m = "") ∧
    (m.get VERCEL_FORWARDED_HEADER = none → m.get FORWARDED_HEADER = none →
      ForwardedFor.get_forwarded_for_ip m = "") := by
  unfold ForwardedFor.get_forwarded_for_ip
  refine ⟨?_, ?_, ?_, ?_, ?_⟩
  · intro h1 h2; simp [h1, h2, Option.orElse]
  · intro h1 h2; simp [h1, h2, Option.orElse]
  · intro h1 h2 h3; simp [h1, h2, h3, Option.orElse]
  · intro h1 h2 h3; simp [h1, h2, h3, Option.orElse]
  · intro h1 h2; simp [h1, h2, Option.orElse]

/-- Witness for C10 on four concrete header maps. -/
theorem c10_witness :
    ForwardedFor.get_forwarded_for_ip
      ⟨[("X-Vercel-Forwarded-For", ⟨some "192.158.1.38"⟩),
        ("X-Forwarded-For", ⟨some "111.222.3.44"⟩)]⟩ = "192.158.1.38" ∧
    ForwardedFor.get_forwarded_for_ip
      ⟨[("X-Vercel-Forwarded-For", ⟨none⟩),
        ("X-Forwarded-For", ⟨some "111.222.3.44"⟩)]⟩ = "" ∧
    ForwardedFor.get_forwarded_for_ip
      ⟨[("X-Forwarded-For", ⟨some "111.222.3.44"⟩)]⟩ = "111.222.3.44" ∧
    ForwardedFor.get_forwarded_for_ip ⟨[]⟩ = "" := by
  refine ⟨?_, ?_, ?_, ?_⟩
  · exact (c10_forwarded_for
      ⟨[("X-Vercel-Forwarded-For", ⟨some "192.158.1.38"⟩),
        ("X-Forwarded-For", ⟨some "111.222.3.44"⟩)]⟩
      ⟨some "192.158.1.38"⟩ "192.158.1.38").1 (by decide) (by decide)
  · exact (c10_forwarded_for
      ⟨[("X-Vercel-Forwarded-For", ⟨none⟩),
        ("X-Forwarded-For", ⟨some "111.222.3.44"⟩)]⟩
      ⟨none⟩ "").2.1 (by decide) (by decide)
  · exact (c10_forwarded_for
      ⟨[("X-Forwarded-For", ⟨some "111.222.3.44"⟩)]⟩
      ⟨some "111.222.3.44"⟩ "111.222.3.44").2.2.1 (by decide) (by decide) (by decide)
  · exact (c10_forwarded_for ⟨[]⟩ ⟨none⟩ "").2.2.2.2 (by decide) (by decide)
